import Mathlib

/-!
Shallow embedding of the movie-catalog CLI (src/main.py).

Modelling conventions:
* Python floats are modelled as rationals (`ℚ`); every arithmetic step the
  program performs on the values appearing in the claims is exact.
* The persisted JSON document is modelled by the inductive `Json`; the file
  on disk is a `FileState` (absent, unparseable, or holding a parsed value).
* A Python dict is an association list with unique keys in insertion order.
* Each `input()` call consumes one `ConsoleLine` from a list modelling stdin.
  A `ConsoleLine` carries the raw string together with the results of
  Python's `float(...)` and `int(...)` conversions applied to it
  (`none` models the `ValueError` the conversion would raise).
-/

namespace MovieProject

/-- A parsed JSON value, as produced by Python's `json.load`.
Integers and floats are distinguished, as Python's `json` module does. -/
inductive Json where
  | obj (kvs : List (String × Json))
  | arr (elems : List Json)
  | str (s : String)
  | num (q : ℚ)
  | jint (n : ℤ)
  | bool (b : Bool)
  | null

/-- The state of the persisted file `movies.json` when `open`/`json.load`
run on it: absent (`FileNotFoundError`), present but not parseable as JSON
(`json.JSONDecodeError`), or parsed to a JSON value. -/
inductive FileState where
  | missing
  | malformed
  | content (j : Json)

/-- The raw dictionary `json.load` yields: titles mapped to arbitrary
parsed JSON values (the loader validates only the top level). -/
abbrev RawCatalog := List (String × Json)

/-- A movie record as `add_movie` builds it: `{'rating': ..., 'year': ...}`. -/
structure Movie where
  rating : ℚ
  year : ℤ
deriving DecidableEq

/-- The in-memory catalog: a dict from title to movie record. -/
abbrev Catalog := List (String × Movie)

/-- The JSON object `{'rating': r, 'year': y}` for one movie, as
`json.dump` serializes it. -/
def encodeMovie (m : Movie) : Json :=
  Json.obj [("rating", Json.num m.rating), ("year", Json.jint m.year)]

/-- The entry list of the JSON document a catalog serializes to. -/
def encodeEntries (movies : Catalog) : RawCatalog :=
  movies.map (fun p => (p.1, encodeMovie p.2))

/-- `load_movies` (src/main.py lines 7-25): returns the parsed dict when the
document is a top-level mapping; returns an empty dict when the file is
missing, is not valid JSON, or parses to a non-mapping value. -/
def load_movies (fs : FileState) : RawCatalog :=
  match fs with
  | .missing => []
  | .malformed => []
  | .content (Json.obj kvs) => kvs
  | .content _ => []

/-- `save_movies` (src/main.py lines 28-40): the document written,
`json.dump(movies, file)` — the full catalog serialized as one object. -/
def save_movies (movies : Catalog) : Json :=
  Json.obj (encodeEntries movies)

/-- One console line together with the results of Python's conversions:
`asFloat` models `float(raw)` (`none` = `ValueError`), `asInt` models
`int(raw)` (`none` = `ValueError`). -/
structure ConsoleLine where
  raw : String
  asFloat : Option ℚ
  asInt : Option ℤ

/-- Python's `str.strip()` with no argument: remove leading and trailing
whitespace. -/
def pyStrip (s : String) : String :=
  ⟨((s.data.dropWhile Char.isWhitespace).reverse.dropWhile
      Char.isWhitespace).reverse⟩

/-- The title-prompt loop of `add_movie` (lines 50-52): read a line, strip
it, and re-prompt while the stripped title is empty.  Returns the accepted
title and the unconsumed rest of stdin; `none` when stdin runs out. -/
def readTitle : List ConsoleLine → Option (String × List ConsoleLine)
  | [] => none
  | l :: rest =>
    let t := pyStrip l.raw
    if t = "" then readTitle rest else some (t, rest)

/-- Python dict assignment `movies[title] = v`: overwrite in place if the
key is present (keeping its position), append otherwise. -/
def dictInsert (movies : Catalog) (title : String) (v : Movie) : Catalog :=
  if movies.any (fun p => p.1 == title) then
    movies.map (fun p => if p.1 == title then (title, v) else p)
  else
    movies ++ [(title, v)]

/-- `add_movie` (src/main.py lines 43-72), reading its three prompts from
the stdin stream.  Result: the catalog afterwards, the document written to
the store (`none` when nothing was saved), and the unconsumed stdin.
An abort path (invalid rating or year) returns before the next prompt runs,
so the lines after the offending one stay unconsumed.  Exhausted stdin
(where Python's `input()` would fail) yields the unchanged catalog. -/
def add_movie (movies : Catalog) (stdin : List ConsoleLine) :
    Catalog × Option Json × List ConsoleLine :=
  match readTitle stdin with
  | none => (movies, none, [])
  | some (title, s1) =>
    match s1 with
    | [] => (movies, none, [])
    | rl :: s2 =>
      match rl.asFloat with
      | none => (movies, none, s2)
      | some rating =>
        if ¬ (0 ≤ rating ∧ rating ≤ 10) then (movies, none, s2)
        else
          match s2 with
          | [] => (movies, none, [])
          | yl :: s3 =>
            match yl.asInt with
            | none => (movies, none, s3)
            | some year =>
              if year < 1800 ∨ year > 2024 then (movies, none, s3)
              else
                let updated := dictInsert movies title ⟨rating, year⟩
                (updated, some (save_movies updated), s3)

/-- `delete_movie` (src/main.py lines 90-103): strip the entered title;
if present, remove it and save; otherwise report not-found.  Result:
catalog afterwards, document written (`none` when nothing was saved), and
whether the title was found. -/
def delete_movie (movies : Catalog) (entered : String) :
    Catalog × Option Json × Bool :=
  let title := pyStrip entered
  if movies.any (fun p => p.1 == title) then
    let updated := movies.filter (fun p => !(p.1 == title))
    (updated, some (save_movies updated), true)
  else
    (movies, none, false)

/-! ### Statistics engine (`display_statistics`, src/main.py lines 106-134) -/

/-- Insert into a sorted list, keeping it sorted (stable). -/
def insertSorted (x : ℚ) : List ℚ → List ℚ
  | [] => [x]
  | y :: ys => if x ≤ y then x :: y :: ys else y :: insertSorted x ys

/-- `sorted(data)`: the list sorted ascending. -/
def sortAsc (l : List ℚ) : List ℚ := l.foldr insertSorted []

/-- `statistics.mean(data)`: the exact arithmetic mean (Python's
`statistics.mean` computes the sum exactly before dividing). -/
def pyMean (l : List ℚ) : ℚ := l.sum / l.length

/-- `statistics.median(data)`: sort; for odd length take the middle
element, for even length average the two central elements. -/
def pyMedian (l : List ℚ) : ℚ :=
  let s := sortAsc l
  let n := l.length
  if n % 2 = 1 then s.getD (n / 2) 0
  else (s.getD (n / 2 - 1) 0 + s.getD (n / 2) 0) / 2

/-- Round to the nearest integer, ties to even (Python's rounding mode). -/
def roundHalfEven (q : ℚ) : ℤ :=
  if q - (⌊q⌋ : ℚ) < 1 / 2 then ⌊q⌋
  else if 1 / 2 < q - (⌊q⌋ : ℚ) then ⌊q⌋ + 1
  else if ⌊q⌋ % 2 = 0 then ⌊q⌋ else ⌊q⌋ + 1

/-- `round(x, 1)`: round to one decimal place, ties to even. -/
def pyRound1 (q : ℚ) : ℚ := (roundHalfEven (q * 10) : ℚ) / 10

/-- `max(iterable)` / `min(iterable)`: left fold over a nonempty list
(defaulting to 0 on the empty list, which the program never reaches). -/
def pyMax : List ℚ → ℚ
  | [] => 0
  | x :: xs => xs.foldl max x

/-- See `pyMax`. -/
def pyMin : List ℚ → ℚ
  | [] => 0
  | x :: xs => xs.foldl min x

/-- What `display_statistics` prints, when it prints statistics at all. -/
structure Stats where
  avg : ℚ
  med : ℚ
  maxRating : ℚ
  minRating : ℚ
  best : List String
  worst : List String
deriving DecidableEq

/-- `display_statistics` (src/main.py lines 106-134): `none` models the
"no movies found" / "no ratings available" early returns; otherwise the
computed statistics.  The best/worst lists keep catalog iteration order. -/
def display_statistics (movies : Catalog) : Option Stats :=
  if movies.isEmpty then none
  else
    let ratings := movies.map (fun p => p.2.rating)
    if ratings.isEmpty then none
    else
      let maxRating := pyMax ratings
      let minRating := pyMin ratings
      some
        { avg := pyRound1 (pyMean ratings)
          med := pyRound1 (pyMedian ratings)
          maxRating := maxRating
          minRating := minRating
          best := (movies.filter (fun p => p.2.rating == maxRating)).map Prod.fst
          worst := (movies.filter (fun p => p.2.rating == minRating)).map Prod.fst }

/-! ### Menu loop (`main`, src/main.py lines 137-170)

The loop runs on the raw, unvalidated dict that `load_movies` returns, and
the program's uncaught-exception paths are modelled explicitly: `input()`
at exhausted stdin raises `EOFError`, which no handler catches (`main`
catches only `ValueError`), and `details['rating']` / `details['year']` on
a malformed loaded entry raise `TypeError`/`KeyError` inside the
dispatched `list_movies` / `display_statistics`, which nothing catches
either.  Any of these terminates the process. -/

/-- Python dict lookup on a parsed JSON object (keys are unique after
`json.load`). -/
def jsonLookup (k : String) : List (String × Json) → Option Json
  | [] => none
  | (k2, v) :: rest => if k2 == k then some v else jsonLookup k rest

/-- `details['rating']` on a raw entry value: `none` models the
`TypeError` (value not a dict) or `KeyError` (key absent) the access
raises. -/
def ratingField : Json → Option Json
  | Json.obj kvs => jsonLookup "rating" kvs
  | _ => none

/-- `details['year']`, as `ratingField`. -/
def yearField : Json → Option Json
  | Json.obj kvs => jsonLookup "year" kvs
  | _ => none

/-- Whether a parsed JSON value is numeric for Python arithmetic:
float, int, or bool (a bool is an int in Python).  `statistics.mean`
raises `TypeError` on anything else. -/
def isNumericJson : Json → Bool
  | Json.num _ => true
  | Json.jint _ => true
  | Json.bool _ => true
  | _ => false

/-- Whether `list_movies` (lines 75-87) raises on this raw catalog: it
prints one line per entry, reading `details['rating']` and
`details['year']`, so it raises exactly when the catalog is non-empty and
some entry lacks either field (the empty catalog takes the early
return). -/
def list_movies_crashes (movies : RawCatalog) : Bool :=
  !movies.isEmpty &&
    movies.any (fun p => (ratingField p.2).isNone || (yearField p.2).isNone)

/-- Whether `display_statistics` (lines 106-134) raises on this raw
catalog: the ratings comprehension reads `details['rating']` of every
entry, then `statistics.mean` needs every rating numeric; `year` is never
read.  The empty catalog takes the early return. -/
def stats_crashes (movies : RawCatalog) : Bool :=
  !movies.isEmpty &&
    movies.any (fun p =>
      match ratingField p.2 with
      | none => true
      | some v => !isNumericJson v)

/-- Python dict assignment on the raw dict, as `dictInsert`. -/
def dictInsertRaw (movies : RawCatalog) (title : String) (v : Json) :
    RawCatalog :=
  if movies.any (fun p => p.1 == title) then
    movies.map (fun p => if p.1 == title then (title, v) else p)
  else
    movies ++ [(title, v)]

/-- `json.dump` of the raw dict: every loaded value serializes back
as itself. -/
def save_movies_raw (movies : RawCatalog) : Json := Json.obj movies

/-- `add_movie` run on the raw dict, with the `EOFError` paths explicit:
`none` means `input()` raised at an exhausted stdin (during the title
loop, or at the rating or year prompt) and the process died.  Otherwise
as `add_movie`: the new dict, the document written (if any), and the
unconsumed stdin. -/
def add_movie_raw (movies : RawCatalog) (stdin : List ConsoleLine) :
    Option (RawCatalog × Option Json × List ConsoleLine) :=
  match readTitle stdin with
  | none => none
  | some (title, s1) =>
    match s1 with
    | [] => none
    | rl :: s2 =>
      match rl.asFloat with
      | none => some (movies, none, s2)
      | some rating =>
        if ¬ (0 ≤ rating ∧ rating ≤ 10) then some (movies, none, s2)
        else
          match s2 with
          | [] => none
          | yl :: s3 =>
            match yl.asInt with
            | none => some (movies, none, s3)
            | some year =>
              if year < 1800 ∨ year > 2024 then some (movies, none, s3)
              else
                let updated :=
                  dictInsertRaw movies title (encodeMovie ⟨rating, year⟩)
                some (updated, some (save_movies_raw updated), s3)

/-- `delete_movie` run on the raw dict: it never reads entry values, so
the only failure mode is the `EOFError` at its title prompt, handled at
the call site in the loop. -/
def delete_movie_raw (movies : RawCatalog) (entered : String) :
    RawCatalog × Option Json × Bool :=
  let title := pyStrip entered
  if movies.any (fun p => p.1 == title) then
    let updated := movies.filter (fun p => !(p.1 == title))
    (updated, some (save_movies_raw updated), true)
  else
    (movies, none, false)

/-- How a run of the menu loop ends: `exited` via selection 0 (the only
clean exit), or `crashed` when an uncaught exception (`EOFError`,
`TypeError`, `KeyError`) terminated the process, leaving the in-memory
catalog as recorded. -/
inductive RunOutcome where
  | exited (movies : RawCatalog)
  | crashed (movies : RawCatalog)

/-- Whether the run ended cleanly through menu selection 0. -/
def RunOutcome.isExited : RunOutcome → Bool
  | .exited _ => true
  | .crashed _ => false

/-- `readTitle` consumes a prefix of stdin: its leftover is a suffix. -/
theorem readTitle_suffix (stdin : List ConsoleLine) :
    ∀ t rest, readTitle stdin = some (t, rest) → rest.IsSuffix stdin := by
  induction stdin with
  | nil => intro t rest h; simp [readTitle] at h
  | cons l ls ih =>
    intro t rest h
    simp only [readTitle] at h
    split at h
    · exact (ih t rest h).trans (List.suffix_cons l ls)
    · obtain ⟨rfl, rfl⟩ := Prod.mk.injEq .. ▸ Option.some.injEq .. ▸ h
      exact List.suffix_cons l ls

/-- When `add_movie_raw` returns, its leftover stdin is a suffix of the
stream it was given. -/
theorem add_movie_raw_suffix (movies : RawCatalog)
    (stdin : List ConsoleLine) :
    ∀ r, add_movie_raw movies stdin = some r → r.2.2.IsSuffix stdin := by
  intro r h
  unfold add_movie_raw at h
  cases hrt : readTitle stdin with
  | none => rw [hrt] at h; cases h
  | some p =>
    rw [hrt] at h
    obtain ⟨title, s1⟩ := p
    dsimp only at h
    cases s1 with
    | nil => cases h
    | cons rl s2 =>
      have hs1 : (rl :: s2).IsSuffix stdin :=
        readTitle_suffix stdin title (rl :: s2) hrt
      have hs2 : s2.IsSuffix stdin := (List.suffix_cons rl s2).trans hs1
      dsimp only at h
      cases hf : rl.asFloat with
      | none =>
        rw [hf] at h
        injection h with heq
        subst heq
        exact hs2
      | some rating =>
        rw [hf] at h
        dsimp only at h
        by_cases hc : ¬ (0 ≤ rating ∧ rating ≤ 10)
        · rw [if_pos hc] at h
          injection h with heq
          subst heq
          exact hs2
        · rw [if_neg hc] at h
          cases s2 with
          | nil => cases h
          | cons yl s3 =>
            have hs3 : s3.IsSuffix stdin :=
              (List.suffix_cons yl s3).trans hs2
            dsimp only at h
            cases hy : yl.asInt with
            | none =>
              rw [hy] at h
              injection h with heq
              subst heq
              exact hs3
            | some year =>
              rw [hy] at h
              dsimp only at h
              by_cases hyc : year < 1800 ∨ year > 2024
              · rw [if_pos hyc] at h
                injection h with heq
                subst heq
                exact hs3
              · rw [if_neg hyc] at h
                injection h with heq
                subst heq
                exact hs3

/-- The menu loop `main` (src/main.py lines 137-170) on the raw loaded
dict.  Each iteration reads one selection line; `int(...)` raising
`ValueError` (`asInt = none`) prints a diagnostic and re-loops; 0 exits;
1 and 4 dispatch the read-only operations, which crash the process when
they touch a malformed entry; 2 and 3 dispatch the mutating operations
(which read their own prompts from stdin); any other integer prints
"Invalid choice" and re-loops.  An exhausted stdin at any `input()`
raises `EOFError`, uncaught, crashing the process. -/
def runMainRaw (movies : RawCatalog) (stdin : List ConsoleLine) :
    RunOutcome :=
  match stdin with
  | [] => .crashed movies
  | l :: rest =>
    match l.asInt with
    | none => runMainRaw movies rest
    | some n =>
      if n = 0 then .exited movies
      else if n = 1 then
        if list_movies_crashes movies then .crashed movies
        else runMainRaw movies rest
      else if n = 2 then
        match _hadd : add_movie_raw movies rest with
        | none => .crashed movies
        | some r => runMainRaw r.1 r.2.2
      else if n = 3 then
        if rest.isEmpty then .crashed movies
        else runMainRaw
          (delete_movie_raw movies (rest.headD ⟨"", none, none⟩).raw).1
          rest.tail
      else if n = 4 then
        if stats_crashes movies then .crashed movies
        else runMainRaw movies rest
      else runMainRaw movies rest
termination_by stdin.length
decreasing_by
  all_goals simp only [List.length_cons]
  all_goals try simp only [List.length_tail]
  all_goals try omega
  all_goals
    have := (add_movie_raw_suffix movies rest _ _hadd).length_le
    omega

/-! ### Helper lemmas -/

/-- Evaluate `roundHalfEven` when the argument lies in `[n, n + 1/2)`. -/
theorem roundHalfEven_eq_of (n : ℤ) (q : ℚ) (h1 : (n : ℚ) ≤ q)
    (h2 : q < (n : ℚ) + 1 / 2) : roundHalfEven q = n := by
  have hf : ⌊q⌋ = n := Int.floor_eq_iff.mpr ⟨h1, by linarith⟩
  have hr : q - (n : ℚ) < 1 / 2 := by linarith
  unfold roundHalfEven
  rw [hf, if_pos hr]

/-- Evaluate `pyRound1` when ten times the argument lies in `[n, n + 1/2)`. -/
theorem pyRound1_eq_of (n : ℤ) (q : ℚ) (h1 : (n : ℚ) ≤ q * 10)
    (h2 : q * 10 < (n : ℚ) + 1 / 2) : pyRound1 q = (n : ℚ) / 10 := by
  unfold pyRound1
  rw [roundHalfEven_eq_of n (q * 10) h1 h2]

theorem foldl_max_mem (xs : List ℚ) (x : ℚ) :
    xs.foldl max x = x ∨ xs.foldl max x ∈ xs := by
  induction xs generalizing x with
  | nil => exact Or.inl rfl
  | cons y ys ih =>
    rcases ih (max x y) with h | h
    · rcases max_choice x y with hxy | hxy
      · exact Or.inl (by rw [List.foldl_cons, h, hxy])
      · refine Or.inr ?_
        rw [List.foldl_cons, h, hxy]
        exact List.mem_cons_self y ys
    · exact Or.inr (List.mem_cons_of_mem y h)

theorem le_foldl_max (xs : List ℚ) (x : ℚ) :
    x ≤ xs.foldl max x ∧ ∀ y ∈ xs, y ≤ xs.foldl max x := by
  induction xs generalizing x with
  | nil => exact ⟨le_refl x, by simp⟩
  | cons z zs ih =>
    obtain ⟨h1, h2⟩ := ih (max x z)
    refine ⟨le_trans (le_max_left x z) h1, ?_⟩
    intro y hy
    rcases List.mem_cons.mp hy with rfl | hy
    · exact le_trans (le_max_right x y) h1
    · exact h2 y hy

theorem foldl_min_mem (xs : List ℚ) (x : ℚ) :
    xs.foldl min x = x ∨ xs.foldl min x ∈ xs := by
  induction xs generalizing x with
  | nil => exact Or.inl rfl
  | cons y ys ih =>
    rcases ih (min x y) with h | h
    · rcases min_choice x y with hxy | hxy
      · exact Or.inl (by rw [List.foldl_cons, h, hxy])
      · refine Or.inr ?_
        rw [List.foldl_cons, h, hxy]
        exact List.mem_cons_self y ys
    · exact Or.inr (List.mem_cons_of_mem y h)

theorem foldl_min_le (xs : List ℚ) (x : ℚ) :
    xs.foldl min x ≤ x ∧ ∀ y ∈ xs, xs.foldl min x ≤ y := by
  induction xs generalizing x with
  | nil => exact ⟨le_refl x, by simp⟩
  | cons z zs ih =>
    obtain ⟨h1, h2⟩ := ih (min x z)
    refine ⟨le_trans h1 (min_le_left x z), ?_⟩
    intro y hy
    rcases List.mem_cons.mp hy with rfl | hy
    · exact le_trans h1 (min_le_right x y)
    · exact h2 y hy

theorem pyMax_mem (l : List ℚ) (h : l ≠ []) : pyMax l ∈ l := by
  cases l with
  | nil => exact absurd rfl h
  | cons x xs =>
    simp only [pyMax]
    rcases foldl_max_mem xs x with h1 | h1
    · rw [h1]; exact List.mem_cons_self x xs
    · exact List.mem_cons_of_mem x h1

theorem le_pyMax (l : List ℚ) (y : ℚ) (hy : y ∈ l) : y ≤ pyMax l := by
  cases l with
  | nil => exact absurd hy (List.not_mem_nil y)
  | cons x xs =>
    simp only [pyMax]
    rcases List.mem_cons.mp hy with rfl | hy2
    · exact (le_foldl_max xs y).1
    · exact (le_foldl_max xs x).2 y hy2

theorem pyMin_mem (l : List ℚ) (h : l ≠ []) : pyMin l ∈ l := by
  cases l with
  | nil => exact absurd rfl h
  | cons x xs =>
    simp only [pyMin]
    rcases foldl_min_mem xs x with h1 | h1
    · rw [h1]; exact List.mem_cons_self x xs
    · exact List.mem_cons_of_mem x h1

theorem pyMin_le (l : List ℚ) (y : ℚ) (hy : y ∈ l) : pyMin l ≤ y := by
  cases l with
  | nil => exact absurd hy (List.not_mem_nil y)
  | cons x xs =>
    simp only [pyMin]
    rcases List.mem_cons.mp hy with rfl | hy2
    · exact (foldl_min_le xs y).1
    · exact (foldl_min_le xs x).2 y hy2

/-- The catalog of the worked statistics example in the specification. -/
def exampleCatalog : Catalog :=
  [("A", ⟨9, 2000⟩), ("B", ⟨7, 2001⟩), ("C", ⟨9, 2002⟩)]

/-- A two-movie catalog exercising the even-length median tie rule. -/
def twoMovieCatalog : Catalog := [("X", ⟨5, 2000⟩), ("Y", ⟨7, 2001⟩)]

/-! ### C1 -/

/-- C1: for the catalog `{A: 9.0, B: 7.0, C: 9.0}`, `display_statistics`
computes mean 8.3, median 9.0, best movies "A, C" at rating 9.0 (all
maximal titles, comma separated, in catalog order) and worst movies "B"
at rating 7.0. -/
theorem claim_C1_statistics_example :
    display_statistics exampleCatalog =
      some { avg := 83 / 10, med := 9, maxRating := 9, minRating := 7
             best := ["A", "C"], worst := ["B"] } ∧
    String.intercalate ", " ["A", "C"] = "A, C" ∧
    String.intercalate ", " ["B"] = "B" := by
  refine ⟨?_, rfl, rfl⟩
  unfold display_statistics exampleCatalog
  norm_num [pyMean, pyMedian, sortAsc, insertSorted, pyMax, pyMin, max_def,
    min_def]
  constructor
  · rw [pyRound1_eq_of 83 _ (by norm_num) (by norm_num)]
    norm_num
  · rw [pyRound1_eq_of 90 _ (by norm_num) (by norm_num)]
    norm_num

/-! ### C8 -/

/-- C8: for every even-length collection of ratings, the median computed by
`display_statistics` is the average of the two central elements of the
sorted sequence, rounded to one decimal place. -/
theorem claim_C8_median_even_rule (movies : Catalog) (hne : movies ≠ [])
    (heven : (movies.map (fun p => p.2.rating)).length % 2 = 0) :
    ∃ s, display_statistics movies = some s ∧
      s.med = pyRound1
        (((sortAsc (movies.map (fun p => p.2.rating))).getD
            ((movies.map (fun p => p.2.rating)).length / 2 - 1) 0 +
          (sortAsc (movies.map (fun p => p.2.rating))).getD
            ((movies.map (fun p => p.2.rating)).length / 2) 0) / 2) := by
  cases movies with
  | nil => exact absurd rfl hne
  | cons p ps =>
    set ratings := (p :: ps).map (fun q => q.2.rating) with hrat
    have hstat : display_statistics (p :: ps) =
        some { avg := pyRound1 (pyMean ratings), med := pyRound1 (pyMedian ratings)
               maxRating := pyMax ratings, minRating := pyMin ratings
               best := ((p :: ps).filter
                 (fun q => q.2.rating == pyMax ratings)).map Prod.fst
               worst := ((p :: ps).filter
                 (fun q => q.2.rating == pyMin ratings)).map Prod.fst } := by
      simp only [display_statistics, List.isEmpty_cons, List.map_cons,
        Bool.false_eq_true, if_false, hrat]
    refine ⟨_, hstat, ?_⟩
    have hodd : ¬ ratings.length % 2 = 1 := by
      rw [hrat] at heven ⊢
      omega
    -- the even branch of the median is selected
    simp only [pyMedian, if_neg hodd, hrat]

/-- C8 witness: the catalog with ratings `[5.0, 7.0]` has median 6.0, the
average of the two central elements. -/
theorem claim_C8_witness :
    ∃ s, display_statistics twoMovieCatalog = some s ∧ s.med = 6 := by
  obtain ⟨s, hs, hmed⟩ :=
    claim_C8_median_even_rule twoMovieCatalog (by simp [twoMovieCatalog])
      (by simp [twoMovieCatalog])
  refine ⟨s, hs, ?_⟩
  rw [hmed]
  norm_num [twoMovieCatalog, sortAsc, insertSorted]
  rw [pyRound1_eq_of 60 _ (by norm_num) (by norm_num)]
  norm_num

/-! ### C10 -/

/-- C10: for every non-empty catalog, the best and worst title lists are
non-empty, every best title carries the maximum rating and every worst
title the minimum, the maximum/minimum bound every rating, and when all
ratings are equal the two lists coincide. -/
theorem claim_C10_best_worst_lists (movies : Catalog) (hne : movies ≠ []) :
    ∃ s, display_statistics movies = some s ∧
      s.best ≠ [] ∧ s.worst ≠ [] ∧
      (∀ t ∈ s.best, ∃ m : Movie, (t, m) ∈ movies ∧ m.rating = s.maxRating) ∧
      (∀ t ∈ s.worst, ∃ m : Movie, (t, m) ∈ movies ∧ m.rating = s.minRating) ∧
      (∀ p ∈ movies, p.2.rating ≤ s.maxRating ∧ s.minRating ≤ p.2.rating) ∧
      ((∀ p ∈ movies, ∀ q ∈ movies, p.2.rating = q.2.rating) →
        s.best = s.worst) := by
  cases movies with
  | nil => exact absurd rfl hne
  | cons p0 ps =>
    set movies := p0 :: ps with hmv
    set ratings := movies.map (fun p => p.2.rating) with hrat
    have hrne : ratings ≠ [] := by simp [hrat, hmv]
    have hstat : display_statistics movies =
        some { avg := pyRound1 (pyMean ratings), med := pyRound1 (pyMedian ratings)
               maxRating := pyMax ratings, minRating := pyMin ratings
               best := (movies.filter
                 (fun p => p.2.rating == pyMax ratings)).map Prod.fst
               worst := (movies.filter
                 (fun p => p.2.rating == pyMin ratings)).map Prod.fst } := by
      simp only [display_statistics, hmv, List.isEmpty_cons, List.map_cons,
        Bool.false_eq_true, if_false, hrat]
    refine ⟨_, hstat, ?_, ?_, ?_, ?_, ?_, ?_⟩
    · -- best nonempty: some movie attains the maximum
      obtain ⟨q, hq, hqr⟩ := List.mem_map.mp (pyMax_mem ratings hrne)
      apply List.ne_nil_of_mem (a := q.1)
      exact List.mem_map_of_mem Prod.fst
        (List.mem_filter.mpr ⟨hq, beq_iff_eq.mpr hqr⟩)
    · obtain ⟨q, hq, hqr⟩ := List.mem_map.mp (pyMin_mem ratings hrne)
      apply List.ne_nil_of_mem (a := q.1)
      exact List.mem_map_of_mem Prod.fst
        (List.mem_filter.mpr ⟨hq, beq_iff_eq.mpr hqr⟩)
    · intro t ht
      obtain ⟨q, hqf, rfl⟩ := List.mem_map.mp ht
      obtain ⟨hq, hpred⟩ := List.mem_filter.mp hqf
      exact ⟨q.2, by simpa using hq, beq_iff_eq.mp hpred⟩
    · intro t ht
      obtain ⟨q, hqf, rfl⟩ := List.mem_map.mp ht
      obtain ⟨hq, hpred⟩ := List.mem_filter.mp hqf
      exact ⟨q.2, by simpa using hq, beq_iff_eq.mp hpred⟩
    · intro p hp
      exact ⟨le_pyMax ratings p.2.rating (List.mem_map_of_mem _ hp),
        pyMin_le ratings p.2.rating (List.mem_map_of_mem _ hp)⟩
    · intro hall
      obtain ⟨qM, hqM, hqMr⟩ := List.mem_map.mp (pyMax_mem ratings hrne)
      obtain ⟨qm, hqm, hqmr⟩ := List.mem_map.mp (pyMin_mem ratings hrne)
      have : pyMax ratings = pyMin ratings := by
        rw [← hqMr, ← hqmr]
        exact hall qM hqM qm hqm
      simp only [this]

/-- C10 witness: a concrete one-movie catalog has a non-empty best list. -/
theorem claim_C10_witness :
    ∃ s, display_statistics [("A", (⟨9, 2000⟩ : Movie))] = some s ∧
      s.best ≠ [] := by
  obtain ⟨s, hs, h1, -⟩ :=
    claim_C10_best_worst_lists [("A", (⟨9, 2000⟩ : Movie))] (by simp)
  exact ⟨s, hs, h1⟩

/-! ### C2 -/

/-- C2: `load_movies` on a missing file, on unparseable content, and on a
parsed document whose top-level value is not a mapping, in every case
returns an empty catalog (and, being a total function, surfaces no error). -/
theorem claim_C2_load_tolerant :
    load_movies .missing = [] ∧ load_movies .malformed = [] ∧
    ∀ j : Json, (∀ kvs, j ≠ Json.obj kvs) → load_movies (.content j) = [] := by
  refine ⟨rfl, rfl, ?_⟩
  intro j h
  cases j with
  | obj kvs => exact absurd rfl (h kvs)
  | arr elems => rfl
  | str s => rfl
  | num q => rfl
  | jint n => rfl
  | bool b => rfl
  | null => rfl

/-- C2 witness: a document holding a bare number, and one holding an
array, both load as the empty catalog. -/
theorem claim_C2_witness :
    load_movies (.content (Json.num 3)) = [] ∧
    load_movies (.content (Json.arr [])) = [] :=
  ⟨claim_C2_load_tolerant.2.2 (Json.num 3) (fun kvs h => by cases h),
   claim_C2_load_tolerant.2.2 (Json.arr []) (fun kvs h => by cases h)⟩

/-! ### C6 -/

/-- C6: `delete_movie` on an absent title leaves the catalog unchanged,
writes nothing and reports not-found; on a present title it reports found,
persists the updated catalog, keeps exactly the entries whose title
differs (in order), and the result is a sublist of the original. -/
theorem claim_C6_delete_movie (movies : Catalog) (entered : String) :
    (movies.any (fun p => p.1 == pyStrip entered) = false →
      delete_movie movies entered = (movies, none, false)) ∧
    (movies.any (fun p => p.1 == pyStrip entered) = true →
      (delete_movie movies entered).2.2 = true ∧
      (delete_movie movies entered).2.1 =
        some (save_movies (delete_movie movies entered).1) ∧
      (∀ p : String × Movie, p ∈ (delete_movie movies entered).1 ↔
        p ∈ movies ∧ p.1 ≠ pyStrip entered) ∧
      (delete_movie movies entered).1.Sublist movies) := by
  constructor
  · intro habs
    unfold delete_movie
    dsimp only
    rw [habs]
    rfl
  · intro hpres
    unfold delete_movie
    dsimp only
    rw [hpres, if_pos (rfl : true = true)]
    refine ⟨rfl, rfl, ?_, ?_⟩
    · intro p
      rw [List.mem_filter]
      simp
    · exact (List.filter_sublist movies).trans (List.Sublist.refl movies)

/-- C6 witness: deleting "B" from a one-movie catalog reports not-found
and changes nothing; deleting "A" reports found. -/
theorem claim_C6_witness :
    delete_movie [("A", (⟨9, 2000⟩ : Movie))] "B" =
      ([("A", (⟨9, 2000⟩ : Movie))], none, false) ∧
    (delete_movie [("A", (⟨9, 2000⟩ : Movie))] "A").2.2 = true :=
  ⟨(claim_C6_delete_movie [("A", (⟨9, 2000⟩ : Movie))] "B").1 (by decide),
   ((claim_C6_delete_movie [("A", (⟨9, 2000⟩ : Movie))] "A").2 (by decide)).1⟩

/-! ### C3 and C9: add_movie abort behaviour -/

/-- When the rating line fails to parse or is out of range, `add_movie`
returns immediately after consuming the rating line. -/
theorem add_movie_rating_abort (movies : Catalog) (stdin : List ConsoleLine)
    (t : String) (rl : ConsoleLine) (rest : List ConsoleLine)
    (hrt : readTitle stdin = some (t, rl :: rest))
    (hbad : rl.asFloat = none ∨
      ∃ r, rl.asFloat = some r ∧ (r < 0 ∨ 10 < r)) :
    add_movie movies stdin = (movies, none, rest) := by
  unfold add_movie
  rw [hrt]
  dsimp only
  rcases hbad with hnone | ⟨r, hsome, hout⟩
  · rw [hnone]
  · rw [hsome]
    dsimp only
    have hcond : ¬ (0 ≤ r ∧ r ≤ 10) := by
      rintro ⟨h1, h2⟩
      rcases hout with h | h
      · linarith
      · linarith
    rw [if_pos hcond]

/-- When the rating is accepted but the year line fails to parse or is out
of range, `add_movie` returns immediately after consuming the year line. -/
theorem add_movie_year_abort (movies : Catalog) (stdin : List ConsoleLine)
    (t : String) (rl yl : ConsoleLine) (rest : List ConsoleLine) (r : ℚ)
    (hrt : readTitle stdin = some (t, rl :: yl :: rest))
    (hr : rl.asFloat = some r) (hr0 : 0 ≤ r) (hr10 : r ≤ 10)
    (hbad : yl.asInt = none ∨
      ∃ y, yl.asInt = some y ∧ (y < 1800 ∨ 2024 < y)) :
    add_movie movies stdin = (movies, none, rest) := by
  unfold add_movie
  rw [hrt]
  dsimp only
  rw [hr]
  dsimp only
  rw [if_neg (not_not_intro ⟨hr0, hr10⟩)]
  rcases hbad with hnone | ⟨y, hsome, hout⟩
  · rw [hnone]
  · rw [hsome]
    dsimp only
    rw [if_pos hout]

/-- C3: whenever the rating input is non-numeric or outside `[0, 10]`, or
the year input is non-numeric or outside `[1800, 2024]`, `add_movie`
leaves the catalog unchanged and writes nothing to the store. -/
theorem claim_C3_add_movie_invalid (movies : Catalog)
    (stdin : List ConsoleLine)
    (h : (∃ t rl rest, readTitle stdin = some (t, rl :: rest) ∧
            (rl.asFloat = none ∨
              ∃ r, rl.asFloat = some r ∧ (r < 0 ∨ 10 < r))) ∨
         (∃ t rl yl rest r, readTitle stdin = some (t, rl :: yl :: rest) ∧
            rl.asFloat = some r ∧
            (yl.asInt = none ∨
              ∃ y, yl.asInt = some y ∧ (y < 1800 ∨ 2024 < y)))) :
    (add_movie movies stdin).1 = movies ∧
    (add_movie movies stdin).2.1 = none := by
  rcases h with ⟨t, rl, rest, hrt, hbad⟩ | ⟨t, rl, yl, rest, r, hrt, hr, hbad⟩
  · rw [add_movie_rating_abort movies stdin t rl rest hrt hbad]
    exact ⟨rfl, rfl⟩
  · by_cases hrange : 0 ≤ r ∧ r ≤ 10
    · rw [add_movie_year_abort movies stdin t rl yl rest r hrt hr hrange.1
        hrange.2 hbad]
      exact ⟨rfl, rfl⟩
    · have hout : r < 0 ∨ 10 < r := by
        rcases not_and_or.mp hrange with h1 | h1
        · exact Or.inl (lt_of_not_le h1)
        · exact Or.inr (lt_of_not_le h1)
      rw [add_movie_rating_abort movies stdin t rl (yl :: rest) hrt
        (Or.inr ⟨r, hr, hout⟩)]
      exact ⟨rfl, rfl⟩

/-- C3 witness: a rating line parsing to 11.0 aborts the add, leaving an
empty catalog unchanged with nothing written. -/
theorem claim_C3_witness :
    (add_movie [] [⟨"X", none, none⟩, ⟨"11.0", some 11, none⟩]).1 = [] ∧
    (add_movie [] [⟨"X", none, none⟩, ⟨"11.0", some 11, none⟩]).2.1 =
      none :=
  claim_C3_add_movie_invalid [] _
    (Or.inl ⟨"X", ⟨"11.0", some 11, none⟩, [], rfl,
      Or.inr ⟨11, rfl, Or.inr (by norm_num)⟩⟩)

/-- C9: `add_movie` validates in the order title, rating, year: an
empty-after-trim title line only re-prompts the title; a non-empty title
line is accepted with the rest of stdin intact; an invalid rating aborts
the whole operation with the lines after the rating line (in particular
the would-be year line) unconsumed. -/
theorem claim_C9_validation_order :
    (∀ (l : ConsoleLine) (rest : List ConsoleLine), pyStrip l.raw = "" →
      readTitle (l :: rest) = readTitle rest) ∧
    (∀ (l : ConsoleLine) (rest : List ConsoleLine), pyStrip l.raw ≠ "" →
      readTitle (l :: rest) = some (pyStrip l.raw, rest)) ∧
    (∀ (movies : Catalog) (stdin rest : List ConsoleLine) (t : String)
        (rl : ConsoleLine),
      readTitle stdin = some (t, rl :: rest) →
      rl.asFloat = none ∨ (∃ r, rl.asFloat = some r ∧ (r < 0 ∨ 10 < r)) →
      add_movie movies stdin = (movies, none, rest)) := by
  refine ⟨?_, ?_, ?_⟩
  · intro l rest h
    simp only [readTitle]
    rw [if_pos h]
  · intro l rest h
    simp only [readTitle]
    rw [if_neg h]
  · intro movies stdin rest t rl hrt hbad
    exact add_movie_rating_abort movies stdin t rl rest hrt hbad

/-- C9 witness: a blank title line re-prompts; with title "X" accepted, a
non-numeric rating aborts the add with the year line still unconsumed. -/
theorem claim_C9_witness :
    readTitle [⟨" ", none, none⟩, ⟨"X", none, none⟩] =
      readTitle [⟨"X", none, none⟩] ∧
    add_movie [] [⟨"X", none, none⟩, ⟨"abc", none, none⟩,
        ⟨"1999", none, some 1999⟩] =
      ([], none, [⟨"1999", none, some 1999⟩]) :=
  ⟨claim_C9_validation_order.1 ⟨" ", none, none⟩ [⟨"X", none, none⟩] rfl,
   claim_C9_validation_order.2.2 [] _ _ "X" ⟨"abc", none, none⟩ rfl
     (Or.inl rfl)⟩

/-! ### C4: invariants over reachable states -/

/-- The spec's data-model invariant: every stored rating lies in
`[0, 10]`, every stored year in `[1800, 2024]`, and titles are unique and
non-empty. -/
def catalogInv (movies : Catalog) : Prop :=
  (∀ p ∈ movies, 0 ≤ p.2.rating ∧ p.2.rating ≤ 10 ∧
    1800 ≤ p.2.year ∧ p.2.year ≤ 2024 ∧ p.1 ≠ "") ∧
  (movies.map Prod.fst).Nodup

/-- A title accepted by the title-prompt loop is never empty. -/
theorem readTitle_ne_empty (stdin : List ConsoleLine) :
    ∀ t rest, readTitle stdin = some (t, rest) → t ≠ "" := by
  induction stdin with
  | nil => intro t rest h; simp [readTitle] at h
  | cons l ls ih =>
    intro t rest h
    simp only [readTitle] at h
    by_cases hc : pyStrip l.raw = ""
    · rw [if_pos hc] at h
      exact ih t rest h
    · rw [if_neg hc] at h
      obtain ⟨rfl, rfl⟩ := Prod.mk.injEq .. ▸ Option.some.injEq .. ▸ h
      exact hc

/-- Dict assignment with a non-empty title and in-range rating and year
preserves the catalog invariant. -/
theorem dictInsert_inv (movies : Catalog) (title : String) (r : ℚ) (y : ℤ)
    (hinv : catalogInv movies) (ht : title ≠ "") (h0 : 0 ≤ r) (h10 : r ≤ 10)
    (hy1 : 1800 ≤ y) (hy2 : y ≤ 2024) :
    catalogInv (dictInsert movies title ⟨r, y⟩) := by
  obtain ⟨hent, hnd⟩ := hinv
  unfold dictInsert
  split
  · -- overwrite in place
    constructor
    · intro p hp
      obtain ⟨q, hq, rfl⟩ := List.mem_map.mp hp
      split
      · exact ⟨h0, h10, hy1, hy2, ht⟩
      · exact hent q hq
    · have hkeys : (movies.map
          (fun p => if p.1 == title then (title, (⟨r, y⟩ : Movie)) else p)).map
            Prod.fst = movies.map Prod.fst := by
        rw [List.map_map]
        apply List.map_congr_left
        intro q _
        dsimp only [Function.comp]
        split
        case isTrue hb => exact (beq_iff_eq.mp hb).symm
        case isFalse hb => rfl
      rw [hkeys]
      exact hnd
  · -- append at the end
    case isFalse hmem =>
    have hmem' : movies.any (fun p => p.1 == title) = false :=
      Bool.eq_false_iff.mpr hmem
    constructor
    · intro p hp
      rcases List.mem_append.mp hp with h | h
      · exact hent p h
      · rw [List.mem_singleton] at h
        subst h
        exact ⟨h0, h10, hy1, hy2, ht⟩
    · rw [List.map_append]
      refine List.Nodup.append hnd (List.nodup_singleton title) ?_
      intro a ha hb
      simp only [List.map_cons, List.map_nil, List.mem_singleton] at hb
      subst hb
      obtain ⟨q, hq, hfst⟩ := List.mem_map.mp ha
      have hqne := List.any_eq_false.mp hmem' q hq
      exact hqne (beq_iff_eq.mpr hfst)

/-- `add_movie` preserves the catalog invariant: it inserts only validated
entries. -/
theorem add_movie_preserves_inv (movies : Catalog)
    (stdin : List ConsoleLine) (hinv : catalogInv movies) :
    catalogInv (add_movie movies stdin).1 := by
  unfold add_movie
  cases hrt : readTitle stdin with
  | none => exact hinv
  | some p =>
    obtain ⟨title, s1⟩ := p
    have ht : title ≠ "" := readTitle_ne_empty stdin title s1 hrt
    cases s1 with
    | nil => exact hinv
    | cons rl s2 =>
      dsimp only
      cases rl.asFloat with
      | none => exact hinv
      | some r =>
        dsimp only
        split
        · exact hinv
        next hrange =>
          obtain ⟨h0, h10⟩ := not_not.mp hrange
          cases s2 with
          | nil => exact hinv
          | cons yl s3 =>
            dsimp only
            cases yl.asInt with
            | none => exact hinv
            | some y =>
              dsimp only
              split
              · exact hinv
              next hy =>
                push_neg at hy
                exact dictInsert_inv movies title r y hinv ht h0 h10
                  hy.1 hy.2

/-- `delete_movie` preserves the catalog invariant: it only removes
entries. -/
theorem delete_movie_preserves_inv (movies : Catalog) (entered : String)
    (hinv : catalogInv movies) :
    catalogInv (delete_movie movies entered).1 := by
  obtain ⟨hent, hnd⟩ := hinv
  unfold delete_movie
  dsimp only
  split
  · constructor
    · intro p hp
      exact hent p (List.mem_filter.mp hp).1
    · exact List.Nodup.sublist
        (List.Sublist.map Prod.fst (List.filter_sublist movies)) hnd
  · exact ⟨hent, hnd⟩

/-- One catalog mutation performed by the program. -/
inductive CatalogStep : Catalog → Catalog → Prop
  | add (movies : Catalog) (stdin : List ConsoleLine) :
      CatalogStep movies (add_movie movies stdin).1
  | del (movies : Catalog) (entered : String) :
      CatalogStep movies (delete_movie movies entered).1

/-- States reachable from a given catalog by add/delete operations. -/
inductive ReachableFrom (start : Catalog) : Catalog → Prop
  | refl : ReachableFrom start start
  | step {c c2 : Catalog} : ReachableFrom start c → CatalogStep c c2 →
      ReachableFrom start c2

/-- States reachable through the program's operations as the claim words
them: an initial `load_movies` from some file state, followed by any
sequence of `add_movie` and `delete_movie`. -/
def ReachableState (movies : Catalog) : Prop :=
  ∃ (start : Catalog) (fs : FileState),
    load_movies fs = encodeEntries start ∧ ReachableFrom start movies

/-- A catalog whose single entry violates the rating invariant. -/
def badCatalog : Catalog := [("X", ⟨99, 1900⟩)]

/-- C4 counterexample: `load_movies` performs no entry-level validation,
so loading a file that stores rating 99 yields a reachable state violating
the invariant. -/
theorem claim_C4_counterexample :
    ReachableState badCatalog ∧ ¬ catalogInv badCatalog := by
  constructor
  · exact ⟨badCatalog, .content (Json.obj (encodeEntries badCatalog)), rfl,
      .refl⟩
  · rintro ⟨hent, -⟩
    have h := hent ("X", ⟨99, 1900⟩) (by simp [badCatalog])
    have h2 := h.2.1
    norm_num at h2

/-- C4 (amended): every state reachable by add/delete from an initial
catalog satisfying the invariant (in particular the empty catalog that a
missing or malformed file loads as) satisfies the invariant. -/
theorem claim_C4_invariants_preserved (start movies : Catalog)
    (h0 : catalogInv start) (h : ReachableFrom start movies) :
    catalogInv movies := by
  induction h with
  | refl => exact h0
  | step _ s ih =>
    cases s with
    | add stdin => exact add_movie_preserves_inv _ stdin ih
    | del entered => exact delete_movie_preserves_inv _ entered ih

/-- C4 witness: the empty catalog satisfies the invariant, via the amended
theorem at the trivial reachability. -/
theorem claim_C4_witness : catalogInv ([] : Catalog) :=
  claim_C4_invariants_preserved [] [] ⟨by simp, by simp⟩ ReachableFrom.refl

/-! ### C5: save/load round-trip -/

/-- The JSON encoding of a movie record is injective. -/
theorem encodeMovie_injective : Function.Injective encodeMovie := by
  intro a b h
  cases a
  cases b
  simp_all [encodeMovie]

/-- The JSON encoding of a catalog's entries is injective. -/
theorem encodeEntries_injective : Function.Injective encodeEntries := by
  unfold encodeEntries
  apply List.map_injective_iff.mpr
  intro a b h
  obtain ⟨h1, h2⟩ := Prod.mk.injEq .. ▸ h
  exact Prod.ext h1 (encodeMovie_injective h2)

/-- C5: for a catalog whose entries satisfy the rating and year
invariants, saving and then loading yields exactly the serialized entries
of the original catalog, and those entries determine the catalog — the
round-trip loses nothing. -/
theorem claim_C5_save_load_roundtrip (movies : Catalog)
    (_hinv : ∀ p ∈ movies, 0 ≤ p.2.rating ∧ p.2.rating ≤ 10 ∧
      1800 ≤ p.2.year ∧ p.2.year ≤ 2024) :
    load_movies (.content (save_movies movies)) = encodeEntries movies ∧
    ∀ movies2 : Catalog,
      encodeEntries movies2 = encodeEntries movies → movies2 = movies :=
  ⟨rfl, fun _ h => encodeEntries_injective h⟩

/-- C5 witness: round-trip at a concrete one-movie catalog. -/
theorem claim_C5_witness :
    load_movies (.content (save_movies [("A", (⟨9, 2000⟩ : Movie))])) =
      encodeEntries [("A", (⟨9, 2000⟩ : Movie))] :=
  (claim_C5_save_load_roundtrip [("A", (⟨9, 2000⟩ : Movie))]
    (by intro p hp; simp only [List.mem_singleton] at hp; subst hp
        refine ⟨by norm_num, by norm_num, by norm_num, by norm_num⟩)).1

/-! ### C7: menu loop claims -/

theorem runMainRaw_nil (movies : RawCatalog) :
    runMainRaw movies [] = .crashed movies := by
  rw [runMainRaw.eq_def]

/-- A raw catalog whose every entry value is the serialization of a movie
record — the shape of every entry the program itself writes. -/
def rawWellFormed (movies : RawCatalog) : Prop :=
  ∀ p ∈ movies, ∃ m : Movie, p.2 = encodeMovie m

theorem ratingField_encodeMovie (m : Movie) :
    ratingField (encodeMovie m) = some (Json.num m.rating) := rfl

theorem yearField_encodeMovie (m : Movie) :
    yearField (encodeMovie m) = some (Json.jint m.year) := rfl

/-- On a well-formed raw catalog the read-only dispatched operations do
not raise. -/
theorem rawWellFormed_no_crash (movies : RawCatalog)
    (h : rawWellFormed movies) :
    list_movies_crashes movies = false ∧ stats_crashes movies = false := by
  constructor
  · unfold list_movies_crashes
    have hany : movies.any
        (fun p => (ratingField p.2).isNone || (yearField p.2).isNone) =
          false := by
      rw [List.any_eq_false]
      intro p hp
      obtain ⟨m, hm⟩ := h p hp
      rw [hm, ratingField_encodeMovie, yearField_encodeMovie]
      simp
    rw [hany, Bool.and_false]
  · unfold stats_crashes
    have hany : movies.any (fun p =>
        match ratingField p.2 with
        | none => true
        | some v => !isNumericJson v) = false := by
      rw [List.any_eq_false]
      intro p hp
      obtain ⟨m, hm⟩ := h p hp
      rw [hm, ratingField_encodeMovie]
      simp [isNumericJson]
    rw [hany, Bool.and_false]

/-- The menu loop never exits cleanly while no input line parses to the
integer 0 (fuel-indexed form for induction on the stdin length). -/
theorem runMainRaw_no_exit (fuel : ℕ) :
    ∀ stdin : List ConsoleLine, stdin.length ≤ fuel →
      (∀ l ∈ stdin, l.asInt ≠ some 0) → ∀ movies : RawCatalog,
      (runMainRaw movies stdin).isExited = false := by
  induction fuel with
  | zero =>
    intro stdin hlen _ movies
    have hnil : stdin = [] :=
      List.eq_nil_of_length_eq_zero (Nat.le_zero.mp hlen)
    subst hnil
    rw [runMainRaw_nil]
    rfl
  | succ f ih =>
    intro stdin hlen hno movies
    cases stdin with
    | nil =>
      rw [runMainRaw_nil]
      rfl
    | cons l rest =>
      have hlrest : rest.length ≤ f := by
        simp only [List.length_cons] at hlen
        omega
      have hno_rest : ∀ x ∈ rest, x.asInt ≠ some 0 :=
        fun x hx => hno x (List.mem_cons_of_mem l hx)
      rw [runMainRaw.eq_def]
      dsimp only
      cases hl : l.asInt with
      | none => exact ih rest hlrest hno_rest movies
      | some n =>
        dsimp only
        have hn0 : ¬ n = 0 := by
          intro hc
          exact hno l (List.mem_cons_self l rest) (by rw [hl, hc])
        rw [if_neg hn0]
        by_cases h1 : n = 1
        · rw [if_pos h1]
          by_cases hc : list_movies_crashes movies = true
          · rw [if_pos hc]
            rfl
          · rw [if_neg hc]
            exact ih rest hlrest hno_rest movies
        · rw [if_neg h1]
          by_cases h2 : n = 2
          · rw [if_pos h2]
            split
            · rfl
            next r heq =>
              have hsub := add_movie_raw_suffix movies rest r heq
              exact ih r.2.2 (le_trans hsub.length_le hlrest)
                (fun x hx => hno_rest x (hsub.subset hx)) r.1
          · rw [if_neg h2]
            by_cases h3 : n = 3
            · rw [if_pos h3]
              by_cases hre : rest.isEmpty = true
              · rw [if_pos hre]
                rfl
              · rw [if_neg hre]
                have htl : rest.tail.length ≤ f := by
                  have := List.length_tail rest
                  omega
                exact ih rest.tail htl
                  (fun x hx => hno_rest x (List.mem_of_mem_tail hx)) _
            · rw [if_neg h3]
              by_cases h4 : n = 4
              · rw [if_pos h4]
                by_cases hc : stats_crashes movies = true
                · rw [if_pos hc]
                  rfl
                · rw [if_neg hc]
                  exact ih rest hlrest hno_rest movies
              · rw [if_neg h4]
                exact ih rest hlrest hno_rest movies

/-- C7 counterexample: the claim fails on the code in two ways.  The file
`{"A": 5}` is a well-formed top-level mapping, so `load_movies` returns it
unvalidated; selecting 4 then runs `display_statistics`, whose
`details['rating']` raises `TypeError` — an error raised during a
dispatched operation escapes the loop and terminates the process.  And an
exhausted stdin makes `input()` raise `EOFError`, uncaught by the
`except ValueError` handler, so the loop also terminates without
selection 0 ever being entered. -/
theorem claim_C7_counterexample :
    load_movies (.content (Json.obj [("A", Json.jint 5)])) =
      [("A", Json.jint 5)] ∧
    runMainRaw [("A", Json.jint 5)] [⟨"4", none, some 4⟩] =
      .crashed [("A", Json.jint 5)] ∧
    runMainRaw [] [] = .crashed [] := by
  refine ⟨rfl, ?_, runMainRaw_nil []⟩
  have hs : stats_crashes [("A", Json.jint 5)] = true := rfl
  rw [runMainRaw.eq_def]
  dsimp only
  rw [if_neg (by decide), if_neg (by decide), if_neg (by decide),
    if_neg (by decide), if_pos rfl, if_pos hs]

/-- C7 (amended): a selection line parsing to 0 exits the loop at once
with the catalog intact; a non-integer or out-of-range integer selection
only re-loops with no other effect; a selection dispatching a read-only
operation (1 or 4) on a catalog whose entries are all well-formed movie
records re-loops without any error escaping; and as long as no input line
parses to 0 the loop never exits cleanly — though it can crash on an
exhausted stdin or on malformed loaded entries. -/
theorem claim_C7_menu_loop_amended :
    (∀ (movies : RawCatalog) (l : ConsoleLine) (rest : List ConsoleLine),
      l.asInt = some 0 → runMainRaw movies (l :: rest) = .exited movies) ∧
    (∀ (movies : RawCatalog) (l : ConsoleLine) (rest : List ConsoleLine),
      (l.asInt = none ∨ ∃ n, l.asInt = some n ∧ (n < 0 ∨ 4 < n)) →
      runMainRaw movies (l :: rest) = runMainRaw movies rest) ∧
    (∀ (movies : RawCatalog) (l : ConsoleLine) (rest : List ConsoleLine)
        (n : ℤ),
      l.asInt = some n → (n = 1 ∨ n = 4) → rawWellFormed movies →
      runMainRaw movies (l :: rest) = runMainRaw movies rest) ∧
    (∀ (movies : RawCatalog) (stdin : List ConsoleLine),
      (∀ l ∈ stdin, l.asInt ≠ some 0) →
      (runMainRaw movies stdin).isExited = false) := by
  refine ⟨?_, ?_, ?_, ?_⟩
  · intro movies l rest h
    rw [runMainRaw.eq_def]
    dsimp only
    rw [h]
    dsimp only
    rw [if_pos rfl]
  · intro movies l rest h
    rcases h with hnone | ⟨n, hn, hout⟩
    · rw [runMainRaw.eq_def]
      dsimp only
      rw [hnone]
    · rw [runMainRaw.eq_def]
      dsimp only
      rw [hn]
      dsimp only
      rw [if_neg (by omega), if_neg (by omega), if_neg (by omega),
        if_neg (by omega), if_neg (by omega)]
  · intro movies l rest n hl h14 hwf
    obtain ⟨hlist, hstats⟩ := rawWellFormed_no_crash movies hwf
    rw [runMainRaw.eq_def]
    dsimp only
    rw [hl]
    dsimp only
    rcases h14 with rfl | rfl
    · rw [if_neg (by decide), if_pos rfl, hlist, if_neg (by decide)]
    · rw [if_neg (by decide), if_neg (by decide), if_neg (by decide),
        if_neg (by decide), if_pos rfl, hstats, if_neg (by decide)]
  · intro movies stdin h
    exact runMainRaw_no_exit stdin.length stdin le_rfl h movies

/-- C7 witness: selection 0 exits; a non-integer selection re-loops and a
later 0 still exits; selection 4 on a well-formed one-movie catalog
re-loops without crashing; a loop fed only selection 7 never exits
cleanly. -/
theorem claim_C7_witness :
    runMainRaw [] [⟨"0", none, some 0⟩] = .exited [] ∧
    runMainRaw [] [⟨"abc", none, none⟩, ⟨"0", none, some 0⟩] =
      .exited [] ∧
    runMainRaw [("A", encodeMovie ⟨9, 2000⟩)]
        [⟨"4", none, some 4⟩, ⟨"0", none, some 0⟩] =
      .exited [("A", encodeMovie ⟨9, 2000⟩)] ∧
    (runMainRaw [] [⟨"7", none, some 7⟩]).isExited = false := by
  refine ⟨claim_C7_menu_loop_amended.1 [] _ [] rfl, ?_, ?_, ?_⟩
  · rw [claim_C7_menu_loop_amended.2.1 [] _ _ (Or.inl rfl)]
    exact claim_C7_menu_loop_amended.1 [] _ [] rfl
  · have hwf : rawWellFormed [("A", encodeMovie ⟨9, 2000⟩)] := by
      intro p hp
      simp only [List.mem_singleton] at hp
      subst hp
      exact ⟨⟨9, 2000⟩, rfl⟩
    rw [claim_C7_menu_loop_amended.2.2.1 _ _ _ 4 rfl (Or.inr rfl) hwf]
    exact claim_C7_menu_loop_amended.1 _ _ [] rfl
  · refine claim_C7_menu_loop_amended.2.2.2 [] _ ?_
    intro l hl
    simp only [List.mem_singleton] at hl
    subst hl
    decide

end MovieProject
